import Mathlib

/-!
Shallow embedding of the `gcsfast` repository (files `gcsfast/cli/download.py`
and `gcsfast/constants.py`).

Byte offsets, byte counts and worker counts are modelled as `Nat`: they are
Python integers and every value reaching the functions below is non-negative.
The two loop-based functions of the source (`subdivide_range` and
`calculate_jobs`) initialize their loop variable with `finish = -1`, so the
first `while finish < bound` test is always true for a non-negative bound; the
loops are therefore do-while loops, modelled by recursive functions that emit
one element and recurse while `finish < bound`.
-/

/-- `gcsfast/constants.py` line 19: `262144 * 4 * 64`, i.e. 64 MiB. -/
def DEFAULT_MINIMUM_DOWNLOAD_SLICE_SIZE : Nat := 262144 * 4 * 64

/-- `gcsfast/constants.py` line 20: `262144 * 4 * 1024`, i.e. 1 GiB. -/
def DEFAULT_MAXIMUM_DOWNLOAD_SLICE_SIZE : Nat := 262144 * 4 * 1024

/-- The token dictionary produced by `tokenize_gcs_url` (external collaborator,
`gcsfast/libraries/gcs.py`, not part of the sliced core); `calculate_jobs` only
passes it through unchanged. -/
structure UrlTokens where
  protocol : String
  bucket : String
  path : String
  filename : String
  deriving DecidableEq

/-- A fixed concrete token record used for concrete instances. -/
def sample_url_tokens : UrlTokens :=
  { protocol := "gs", bucket := "bucket", path := "path", filename := "file" }

/-- `gcsfast/cli/download.py` lines 41-54: a `DownloadJob` records the URL
tokens, the inclusive byte range `[start, end]` and a 1-based slice number. -/
structure DownloadJob where
  url_tokens : UrlTokens
  start : Nat
  «end» : Nat
  slice_number : Nat
  deriving DecidableEq

/-- The loop of `subdivide_range` (`download.py` lines 155-162).  The loop body
sets `finish = start + subrange_size`, emits `(start, min(finish, range_end))`,
and continues from `finish + 1` while `finish < range_end`; `finish` is inlined
below. -/
def subdivide_range_go (range_end subrange_size start : Nat) : List (Nat × Nat) :=
  (start, min (start + subrange_size) range_end) ::
    (if h : start + subrange_size < range_end then
      subdivide_range_go range_end subrange_size (start + subrange_size + 1)
    else [])
termination_by range_end - start
decreasing_by omega

/-- `download.py` lines 152-162, `subdivide_range`.  `range_end - range_start`
is `Nat` subtraction, which agrees with the source whenever
`range_start ≤ range_end`; `int(range_size / subdivisions)` truncates toward
zero, which on non-negative operands is floor division, modelled as `Nat`
division. -/
def subdivide_range (range_start range_end : Nat) (subdivisions : Nat) : List (Nat × Nat) :=
  let range_size := range_end - range_start
  let subrange_size := range_size / subdivisions
  subdivide_range_go range_end subrange_size range_start

/-- The loop of `calculate_jobs` (`download.py` lines 167-178): same cursor
walk as `subdivide_range_go`, but with the bound `blob_size`, a step of
`slice_size`, and a 1-based slice counter attached to each emitted job. -/
def calculate_jobs_go (url_tokens : UrlTokens) (slice_size blob_size slice_number start : Nat) :
    List DownloadJob :=
  { url_tokens := url_tokens, start := start, «end» := min (start + slice_size) blob_size,
    slice_number := slice_number } ::
    (if h : start + slice_size < blob_size then
      calculate_jobs_go url_tokens slice_size blob_size (slice_number + 1)
        (start + slice_size + 1)
    else [])
termination_by blob_size - start
decreasing_by omega

/-- `download.py` lines 165-178, `calculate_jobs`: the loop starts with
`slice_number = 1`, `start = 0`. -/
def calculate_jobs (url_tokens : UrlTokens) (slice_size blob_size : Nat) : List DownloadJob :=
  calculate_jobs_go url_tokens slice_size blob_size 1 0

/-- `download.py` lines 181-202, `calculate_slice_size`.  The Python truthiness
test `min_override if min_override else ...` treats `0` (and `None`) as "not
given", modelled by comparing with `0`; `int(blob_size / jobs)` truncates,
which on non-negative operands is `Nat` division. -/
def calculate_slice_size (blob_size jobs min_override max_override multiplier : Nat) : Nat :=
  let min_slice_size :=
    if min_override ≠ 0 then min_override
    else DEFAULT_MINIMUM_DOWNLOAD_SLICE_SIZE * multiplier
  let max_slice_size :=
    if max_override ≠ 0 then max_override
    else DEFAULT_MAXIMUM_DOWNLOAD_SLICE_SIZE * multiplier
  if blob_size < min_slice_size then blob_size
  else
    let evenly_among_workers := blob_size / jobs
    if evenly_among_workers < min_slice_size then min_slice_size
    else if evenly_among_workers > max_slice_size then max_slice_size
    else evenly_among_workers

/-- Modelled from the spec: the `chooseSliceSize` case analysis of spec section
4.1, written from the spec's words ("effectiveMin = minOverride ?? builtinMin *
multiplier", "If objectSize < effectiveMin: return objectSize", "evenShare =
floor(objectSize / workerCount)", "If evenShare < effectiveMin: return
effectiveMin", "If evenShare > effectiveMax: return effectiveMax", "Otherwise
return evenShare"), for comparison with `calculate_slice_size`.  An override of
`0` stands for "not given". -/
def chooseSliceSize (objectSize workerCount minOverride maxOverride multiplier : Nat) : Nat :=
  let effectiveMin :=
    if minOverride ≠ 0 then minOverride
    else DEFAULT_MINIMUM_DOWNLOAD_SLICE_SIZE * multiplier
  let effectiveMax :=
    if maxOverride ≠ 0 then maxOverride
    else DEFAULT_MAXIMUM_DOWNLOAD_SLICE_SIZE * multiplier
  if objectSize < effectiveMin then objectSize
  else
    let evenShare := objectSize / workerCount
    if evenShare < effectiveMin then effectiveMin
    else if evenShare > effectiveMax then effectiveMax
    else evenShare

/-- Outcome of a Python statement that may raise `IndexError`. -/
inductive PyResult (α : Type) where
  | ok (value : α)
  | indexError
  deriving DecidableEq

/-- Python list item assignment `l[i] = v`: succeeds only when `i` indexes an
existing position, otherwise raises `IndexError` ("list assignment index out of
range"). -/
def list_set_at (l : List Nat) (i : Nat) (v : Nat) : Option (List Nat) :=
  if i < l.length then some (l.set i v) else none

/-- `download.py` line 37: `TRANSFER_CHUNK_SIZE = []` at module load. -/
def TRANSFER_CHUNK_SIZE : List Nat := []

/-- `download.py` line 35: `PROCESS_COUNT = []` at module load. -/
def PROCESS_COUNT : List Nat := []

/-- `download.py` line 36: `THREAD_COUNT = []` at module load. -/
def THREAD_COUNT : List Nat := []

/-- `download.py` lines 60-111, `download_command`, modelled up to its first
three list item assignments (lines 66-68), which run in source order before
anything else except the plain attribute assignment `io.DEFAULT_BUFFER_SIZE =
io_buffer` (line 65, which cannot raise).  Everything from line 71 on —
tokenizing the URL, fetching metadata, slicing and transferring — is the
abstract continuation `rest`, which receives the updated tunable lists. -/
def download_command (io_buffer transfer_chunk processes threads : Nat)
    (rest : List Nat → List Nat → List Nat → PyResult Unit) : PyResult Unit :=
  match list_set_at TRANSFER_CHUNK_SIZE 0 transfer_chunk with
  | none => PyResult.indexError
  | some tcs =>
    match list_set_at PROCESS_COUNT 0 processes with
    | none => PyResult.indexError
    | some pc =>
      match list_set_at THREAD_COUNT 0 threads with
      | none => PyResult.indexError
      | some tc => rest tcs pc tc

/-- `download.py` lines 99-111: the fan-out of the computed job list and the
exit decision, modelled as a function of the job list and of each job's boolean
outcome.  `executor.map(run_download_job, jobs)` submits every job exactly once
and yields the outcomes in job order, modelled by `jobs.map run_download_job`;
the command exits `1` via `exit(1)` when `all(...)` is false and falls off the
end (exit code `0`) otherwise.  This stage is reached only if the tunable
assignments of lines 66-68 did not raise (see `download_command`). -/
def download_command_exit_code (jobs : List DownloadJob)
    (run_download_job : DownloadJob → Bool) : Nat :=
  if (jobs.map run_download_job).all (fun b => b) then 0 else 1

/-- `download.py` lines 127-132, `_download_range`, acting on the output file's
byte contents.  `open(output_filename, "wb")` truncates the file to length 0;
`output.seek(s)` followed by writing the fetched bytes for the inclusive range
`[s, e]` leaves a zero-filled hole in `[0, s)` (POSIX sparse-file semantics)
and writes `data p` at each position `p` in `[s, e]`, where `data` gives the
object's byte at each offset.  The pre-existing contents `file` are destroyed
by the truncation, which is why they do not appear in the result. -/
def _download_range (file : List Nat) (data : Nat → Nat) (s e : Nat) : List Nat :=
  List.replicate s 0 ++ (List.range (e + 1 - s)).map (fun i => data (s + i))

lemma subdivide_range_go_step_lt {range_end subrange_size start : Nat}
    (h : start + subrange_size < range_end) :
    subdivide_range_go range_end subrange_size start =
      (start, start + subrange_size) ::
        subdivide_range_go range_end subrange_size (start + subrange_size + 1) := by
  rw [subdivide_range_go]
  simp [h, Nat.min_eq_left (Nat.le_of_lt h)]

lemma subdivide_range_go_step_ge {range_end subrange_size start : Nat}
    (h : ¬ start + subrange_size < range_end) :
    subdivide_range_go range_end subrange_size start = [(start, min (start + subrange_size) range_end)] := by
  rw [subdivide_range_go]
  simp [h]

lemma subdivide_range_go_ne_nil (range_end subrange_size start : Nat) :
    subdivide_range_go range_end subrange_size start ≠ [] := by
  rw [subdivide_range_go]
  simp

lemma subdivide_range_go_head (range_end subrange_size start : Nat) :
    (subdivide_range_go range_end subrange_size start).head? =
      some (start, min (start + subrange_size) range_end) := by
  rw [subdivide_range_go]
  simp

lemma subdivide_range_go_cover (range_end subrange_size start : Nat) (b : Nat) :
    (∃ r ∈ subdivide_range_go range_end subrange_size start, r.1 ≤ b ∧ b ≤ r.2) ↔
      start ≤ b ∧ b ≤ range_end := by
  by_cases h : start + subrange_size < range_end
  · rw [subdivide_range_go_step_lt h]
    have ih := subdivide_range_go_cover range_end subrange_size
      (start + subrange_size + 1) b
    simp only [List.mem_cons] at *
    constructor
    · rintro ⟨r, hr | hr, h1, h2⟩
      · subst hr
        simp only at h1 h2
        omega
      · have := ih.mp ⟨r, hr, h1, h2⟩
        omega
    · rintro ⟨hb1, hb2⟩
      by_cases hb : b ≤ start + subrange_size
      · exact ⟨(start, start + subrange_size), Or.inl rfl, hb1, hb⟩
      · obtain ⟨r, hr, h1, h2⟩ := ih.mpr ⟨by omega, hb2⟩
        exact ⟨r, Or.inr hr, h1, h2⟩
  · rw [subdivide_range_go_step_ge h]
    simp only [List.mem_singleton]
    constructor
    · rintro ⟨r, rfl, h1, h2⟩
      simp only at h1 h2
      omega
    · rintro ⟨hb1, hb2⟩
      exact ⟨(start, min (start + subrange_size) range_end), rfl, hb1, by omega⟩
termination_by range_end - start
decreasing_by omega

lemma subdivide_range_go_length (range_end subrange_size start : Nat)
    (hs : start ≤ range_end) :
    (subdivide_range_go range_end subrange_size start).length =
      ((range_end - start) + subrange_size + 1) / (subrange_size + 1) := by
  by_cases h : start + subrange_size < range_end
  · rw [subdivide_range_go_step_lt h]
    have ih := subdivide_range_go_length range_end subrange_size
      (start + subrange_size + 1) (by omega)
    simp only [List.length_cons, ih]
    have h1 : range_end - (start + subrange_size + 1) + subrange_size + 1 =
        (range_end - start) := by omega
    have h2 : range_end - start + subrange_size + 1 =
        (range_end - start) + (subrange_size + 1) := by omega
    rw [h1, h2, Nat.add_div_right _ (Nat.succ_pos _)]
  · rw [subdivide_range_go_step_ge h]
    simp only [List.length_singleton]
    symm
    apply Nat.div_eq_of_lt_le <;> omega
termination_by range_end - start
decreasing_by omega

lemma subdivide_range_go_chain (range_end subrange_size start : Nat) :
    List.Chain' (fun a b : Nat × Nat => a.2 + 1 = b.1)
      (subdivide_range_go range_end subrange_size start) := by
  by_cases h : start + subrange_size < range_end
  · rw [subdivide_range_go_step_lt h]
    refine List.chain'_cons'.mpr ⟨?_, subdivide_range_go_chain range_end subrange_size
      (start + subrange_size + 1)⟩
    intro y hy
    rw [subdivide_range_go_head] at hy
    simp only [Option.mem_def, Option.some_inj] at hy
    subst hy
    rfl
  · rw [subdivide_range_go_step_ge h]
    exact List.chain'_singleton _
termination_by range_end - start
decreasing_by omega

lemma subdivide_range_go_start_le (range_end subrange_size start : Nat) :
    ∀ r ∈ subdivide_range_go range_end subrange_size start, start ≤ r.1 := by
  intro r hr
  by_cases h : start + subrange_size < range_end
  · rw [subdivide_range_go_step_lt h] at hr
    rcases List.mem_cons.mp hr with h1 | h1
    · subst h1
      exact Nat.le_refl _
    · have := subdivide_range_go_start_le range_end subrange_size
        (start + subrange_size + 1) r h1
      omega
  · rw [subdivide_range_go_step_ge h] at hr
    rcases List.mem_singleton.mp hr with rfl
    exact Nat.le_refl _
termination_by range_end - start
decreasing_by omega

lemma subdivide_range_go_pairwise (range_end subrange_size start : Nat) :
    List.Pairwise (fun a b : Nat × Nat => a.2 < b.1)
      (subdivide_range_go range_end subrange_size start) := by
  by_cases h : start + subrange_size < range_end
  · rw [subdivide_range_go_step_lt h]
    refine List.pairwise_cons.mpr ⟨?_, subdivide_range_go_pairwise range_end subrange_size
      (start + subrange_size + 1)⟩
    intro r hr
    have h1 := subdivide_range_go_start_le range_end subrange_size
      (start + subrange_size + 1) r hr
    simp only
    omega
  · rw [subdivide_range_go_step_ge h]
    simp
termination_by range_end - start
decreasing_by omega

lemma subdivide_range_go_getLast_snd (range_end subrange_size start : Nat) :
    Option.map Prod.snd (subdivide_range_go range_end subrange_size start).getLast? =
      some range_end := by
  by_cases h : start + subrange_size < range_end
  · rw [subdivide_range_go_step_lt h]
    have ih := subdivide_range_go_getLast_snd range_end subrange_size
      (start + subrange_size + 1)
    obtain ⟨x, xs, hx⟩ := List.exists_cons_of_ne_nil
      (subdivide_range_go_ne_nil range_end subrange_size (start + subrange_size + 1))
    rw [hx] at ih ⊢
    rw [List.getLast?_cons_cons]
    exact ih
  · rw [subdivide_range_go_step_ge h]
    simp only [List.getLast?_singleton, Option.map_some]
    have : min (start + subrange_size) range_end = range_end := by omega
    rw [this]
    rfl
termination_by range_end - start
decreasing_by omega

lemma subdivide_range_go_fst_le_snd (range_end subrange_size start : Nat)
    (hs : start ≤ range_end) :
    ∀ r ∈ subdivide_range_go range_end subrange_size start, r.1 ≤ r.2 := by
  intro r hr
  by_cases h : start + subrange_size < range_end
  · rw [subdivide_range_go_step_lt h] at hr
    rcases List.mem_cons.mp hr with h1 | h1
    · subst h1
      simp only
      omega
    · exact subdivide_range_go_fst_le_snd range_end subrange_size
        (start + subrange_size + 1) (by omega) r h1
  · rw [subdivide_range_go_step_ge h] at hr
    rcases List.mem_singleton.mp hr with rfl
    simp only
    omega
termination_by range_end - start
decreasing_by omega

lemma calculate_jobs_go_map_range (u : UrlTokens) (slice_size blob_size slice_number start : Nat) :
    (calculate_jobs_go u slice_size blob_size slice_number start).map
        (fun j => (j.start, j.«end»)) =
      subdivide_range_go blob_size slice_size start := by
  rw [calculate_jobs_go, subdivide_range_go]
  by_cases h : start + slice_size < blob_size
  · rw [dif_pos h, dif_pos h]
    simp only [List.map_cons]
    rw [calculate_jobs_go_map_range u slice_size blob_size (slice_number + 1)
      (start + slice_size + 1)]
  · rw [dif_neg h, dif_neg h]
    simp
termination_by blob_size - start
decreasing_by omega

lemma calculate_jobs_go_map_slice_number (u : UrlTokens)
    (slice_size blob_size slice_number start : Nat) :
    (calculate_jobs_go u slice_size blob_size slice_number start).map
        (fun j => j.slice_number) =
      List.range' slice_number
        (calculate_jobs_go u slice_size blob_size slice_number start).length := by
  rw [calculate_jobs_go]
  by_cases h : start + slice_size < blob_size
  · rw [dif_pos h]
    simp only [List.map_cons, List.length_cons]
    rw [List.range'_succ]
    congr 1
    exact calculate_jobs_go_map_slice_number u slice_size blob_size (slice_number + 1)
      (start + slice_size + 1)
  · rw [dif_neg h]
    simp [List.range'_one]
termination_by blob_size - start
decreasing_by omega

lemma calculate_jobs_go_ne_nil (u : UrlTokens) (slice_size blob_size slice_number start : Nat) :
    calculate_jobs_go u slice_size blob_size slice_number start ≠ [] := by
  rw [calculate_jobs_go]
  simp

lemma subdivide_count_le (R d : Nat) (hd : 0 < d) :
    (R + R / d + 1) / (R / d + 1) ≤ d := by
  have h1 : R < (R / d + 1) * d := by
    conv_lhs => rw [← Nat.div_add_mod R d]
    calc d * (R / d) + R % d < d * (R / d) + d := Nat.add_lt_add_left (Nat.mod_lt R hd) _
      _ = (R / d + 1) * d := by ring
  have h2 : R + (R / d + 1) < (R / d + 1) * d + (R / d + 1) := Nat.add_lt_add_right h1 _
  have h3 : (R / d + 1) * d + (R / d + 1) = (d + 1) * (R / d + 1) := by ring
  have h5 : (R + R / d + 1) / (R / d + 1) < d + 1 := by
    refine (Nat.div_lt_iff_lt_mul (Nat.succ_pos _)).mpr ?_
    calc R + R / d + 1 = R + (R / d + 1) := by omega
      _ < (d + 1) * (R / d + 1) := by rw [← h3]; exact h2
  omega

lemma calculate_jobs_cover (u : UrlTokens) (slice_size blob_size b : Nat) :
    (∃ j ∈ calculate_jobs u slice_size blob_size, j.start ≤ b ∧ b ≤ j.«end») ↔
      b ≤ blob_size := by
  have key : (∃ j ∈ calculate_jobs u slice_size blob_size, j.start ≤ b ∧ b ≤ j.«end») ↔
      (∃ r ∈ subdivide_range_go blob_size slice_size 0, r.1 ≤ b ∧ b ≤ r.2) := by
    rw [← calculate_jobs_go_map_range u slice_size blob_size 1 0]
    constructor
    · rintro ⟨j, hj, h1, h2⟩
      exact ⟨(j.start, j.«end»), List.mem_map_of_mem _ hj, h1, h2⟩
    · rintro ⟨r, hr, h1, h2⟩
      obtain ⟨j, hj, rfl⟩ := List.mem_map.mp hr
      exact ⟨j, hj, h1, h2⟩
  rw [key, subdivide_range_go_cover]
  omega

lemma calculate_jobs_length (u : UrlTokens) (slice_size blob_size : Nat) :
    (calculate_jobs u slice_size blob_size).length =
      (blob_size + slice_size + 1) / (slice_size + 1) := by
  rw [calculate_jobs]
  have h := subdivide_range_go_length blob_size slice_size 0 (Nat.zero_le _)
  rw [← calculate_jobs_go_map_range u slice_size blob_size 1 0, List.length_map] at h
  rw [h, Nat.sub_zero]

lemma calculate_jobs_pairwise (u : UrlTokens) (slice_size blob_size : Nat) :
    List.Pairwise (fun a b : DownloadJob => a.«end» < b.start)
      (calculate_jobs u slice_size blob_size) := by
  have h := subdivide_range_go_pairwise blob_size slice_size 0
  rw [← calculate_jobs_go_map_range u slice_size blob_size 1 0, List.pairwise_map] at h
  exact h

lemma calculate_jobs_chain (u : UrlTokens) (slice_size blob_size : Nat) :
    List.Chain' (fun a b : DownloadJob => a.«end» + 1 = b.start)
      (calculate_jobs u slice_size blob_size) := by
  have h := subdivide_range_go_chain blob_size slice_size 0
  rw [← calculate_jobs_go_map_range u slice_size blob_size 1 0, List.chain'_map] at h
  exact h

lemma calculate_jobs_fst_le_snd (u : UrlTokens) (slice_size blob_size : Nat) :
    ∀ j ∈ calculate_jobs u slice_size blob_size, j.start ≤ j.«end» := by
  intro j hj
  have h := subdivide_range_go_fst_le_snd blob_size slice_size 0 (Nat.zero_le _)
    (j.start, j.«end»)
  rw [← calculate_jobs_go_map_range u slice_size blob_size 1 0] at h
  exact h (List.mem_map_of_mem _ hj)

lemma calculate_jobs_slice_numbers (u : UrlTokens) (slice_size blob_size : Nat) :
    (calculate_jobs u slice_size blob_size).map (fun j => j.slice_number) =
      List.range' 1 (calculate_jobs u slice_size blob_size).length :=
  calculate_jobs_go_map_slice_number u slice_size blob_size 1 0

lemma calculate_jobs_start_ascending (u : UrlTokens) (slice_size blob_size : Nat) :
    List.Pairwise (fun a b : DownloadJob => a.start < b.start)
      (calculate_jobs u slice_size blob_size) := by
  refine (calculate_jobs_pairwise u slice_size blob_size).imp_of_mem ?_
  intro a b ha hb hab
  have := calculate_jobs_fst_le_snd u slice_size blob_size a ha
  omega

/-- Claim C4 (confirmed): `calculate_slice_size` implements exactly the spec's
`chooseSliceSize` case analysis — effectiveMin is the min override if given
else the built-in minimum times the multiplier (symmetrically for
effectiveMax); if objectSize < effectiveMin it returns objectSize; otherwise,
with evenShare = floor(objectSize / workerCount), it returns effectiveMin if
evenShare < effectiveMin, effectiveMax if evenShare > effectiveMax, and
evenShare otherwise. -/
theorem claim_C4_slice_size_case_analysis
    (blob_size jobs min_override max_override multiplier : Nat) :
    calculate_slice_size blob_size jobs min_override max_override multiplier =
      chooseSliceSize blob_size jobs min_override max_override multiplier := rfl

/-- Claim C5 (confirmed): for every `range_start ≤ range_end` and
`subdivisions ≥ 1`, `subdivide_range` returns a non-empty list of at most
`subdivisions` ranges that are contiguous and pairwise disjoint, whose first
range starts at `range_start`, whose last range ends at `range_end`, and in
which no range has its start greater than its end; in particular
`subdivide_range 0 99 4 = [(0,24),(25,49),(50,74),(75,99)]`. -/
theorem claim_C5_partition_range :
    (∀ range_start range_end subdivisions : Nat,
      range_start ≤ range_end → 1 ≤ subdivisions →
      subdivide_range range_start range_end subdivisions ≠ [] ∧
      (subdivide_range range_start range_end subdivisions).length ≤ subdivisions ∧
      List.Chain' (fun a b : Nat × Nat => a.2 + 1 = b.1)
        (subdivide_range range_start range_end subdivisions) ∧
      List.Pairwise (fun a b : Nat × Nat => a.2 < b.1)
        (subdivide_range range_start range_end subdivisions) ∧
      Option.map Prod.fst (subdivide_range range_start range_end subdivisions).head? =
        some range_start ∧
      Option.map Prod.snd (subdivide_range range_start range_end subdivisions).getLast? =
        some range_end ∧
      (∀ r ∈ subdivide_range range_start range_end subdivisions, r.1 ≤ r.2)) ∧
    subdivide_range 0 99 4 = [(0, 24), (25, 49), (50, 74), (75, 99)] := by
  constructor
  · intro range_start range_end subdivisions h1 h2
    simp only [subdivide_range]
    refine ⟨subdivide_range_go_ne_nil _ _ _, ?_, subdivide_range_go_chain _ _ _,
      subdivide_range_go_pairwise _ _ _, ?_, subdivide_range_go_getLast_snd _ _ _,
      subdivide_range_go_fst_le_snd _ _ _ h1⟩
    · rw [subdivide_range_go_length _ _ _ h1]
      exact subdivide_count_le (range_end - range_start) subdivisions (by omega)
    · rw [subdivide_range_go_head]
      rfl
  · show subdivide_range_go 99 ((99 - 0) / 4) 0 = _
    norm_num
    rw [subdivide_range_go_step_lt (by norm_num), subdivide_range_go_step_lt (by norm_num),
      subdivide_range_go_step_lt (by norm_num), subdivide_range_go_step_ge (by norm_num)]
    norm_num

/-- Claim C5 witness: the universally quantified part of `claim_C5_partition_range`
instantiated at `range_start = 0`, `range_end = 99`, `subdivisions = 4`. -/
theorem claim_C5_partition_range_witness :
    ((0 : Nat) ≤ 99 ∧ (1 : Nat) ≤ 4) ∧
    (subdivide_range 0 99 4 ≠ [] ∧
      (subdivide_range 0 99 4).length ≤ 4 ∧
      List.Chain' (fun a b : Nat × Nat => a.2 + 1 = b.1) (subdivide_range 0 99 4) ∧
      List.Pairwise (fun a b : Nat × Nat => a.2 < b.1) (subdivide_range 0 99 4) ∧
      Option.map Prod.fst (subdivide_range 0 99 4).head? = some 0 ∧
      Option.map Prod.snd (subdivide_range 0 99 4).getLast? = some 99 ∧
      (∀ r ∈ subdivide_range 0 99 4, r.1 ≤ r.2)) :=
  ⟨by decide, claim_C5_partition_range.1 0 99 4 (by decide) (by decide)⟩

/-- Claim C7 (confirmed): in every job list produced by `calculate_jobs`,
consecutive jobs satisfy `job[i].end + 1 = job[i+1].start`, slice numbers are
assigned 1, 2, 3, ... in list order, and the list is in ascending byte-range
order (so ascending slice numbers correspond to ascending ranges). -/
theorem claim_C7_contiguity_and_slice_numbers (u : UrlTokens) (slice_size blob_size : Nat) :
    List.Chain' (fun a b : DownloadJob => a.«end» + 1 = b.start)
      (calculate_jobs u slice_size blob_size) ∧
    (calculate_jobs u slice_size blob_size).map (fun j => j.slice_number) =
      List.range' 1 (calculate_jobs u slice_size blob_size).length ∧
    List.Pairwise (fun a b : DownloadJob => a.start < b.start)
      (calculate_jobs u slice_size blob_size) :=
  ⟨calculate_jobs_chain u slice_size blob_size,
   calculate_jobs_slice_numbers u slice_size blob_size,
   calculate_jobs_start_ascending u slice_size blob_size⟩

/-- Claim C10 (confirmed): for every `slice_size ≥ 1`, `calculate_jobs` called
with object size 0 produces at least one job. -/
theorem claim_C10_zero_size_at_least_one_job (u : UrlTokens) (slice_size : Nat)
    (h : 1 ≤ slice_size) :
    1 ≤ (calculate_jobs u slice_size 0).length := by
  rw [calculate_jobs_length]
  have h1 : 0 + slice_size + 1 = slice_size + 1 := by omega
  rw [h1, Nat.div_self (by omega)]

/-- Claim C10 witness: `claim_C10_zero_size_at_least_one_job` at
`slice_size = 1`. -/
theorem claim_C10_zero_size_at_least_one_job_witness :
    (1 : Nat) ≤ 1 ∧ 1 ≤ (calculate_jobs sample_url_tokens 1 0).length :=
  ⟨by decide, claim_C10_zero_size_at_least_one_job sample_url_tokens 1 (by decide)⟩

/-- Claim C1 counterexample: at objectSize = 21 and sliceSize = 10 the claimed
property fails — `calculate_jobs` emits 2 jobs, `(0, 10)` and `(11, 21)` (each
spanning sliceSize + 1 bytes inclusive, union `[0, 21]` rather than
`[0, 21)`), while the claim requires `ceil(21 / 10) = 3` jobs. -/
theorem claim_C1_counterexample :
    ¬ ((∀ b : Nat, (∃ j ∈ calculate_jobs sample_url_tokens 10 21,
          j.start ≤ b ∧ b ≤ j.«end») ↔ b < 21) ∧
       List.Pairwise (fun a b : DownloadJob => a.«end» < b.start)
         (calculate_jobs sample_url_tokens 10 21) ∧
       (calculate_jobs sample_url_tokens 10 21).length = (21 + 10 - 1) / 10) := by
  rintro ⟨-, -, hlen⟩
  rw [calculate_jobs_length] at hlen
  norm_num at hlen

/-- Claim C1 amended (corrected): for every objectSize ≥ 0 and sliceSize ≥ 1,
the jobs returned by `calculate_jobs` have inclusive byte ranges whose union
covers exactly `[0, objectSize]` (each job end is `min(start + sliceSize,
objectSize)`, one byte past the claimed `[0, objectSize)`), with no gaps and no
overlaps, and the number of jobs equals
`ceil((objectSize + 1) / (sliceSize + 1))`. -/
theorem claim_C1_amended (u : UrlTokens) (blob_size slice_size : Nat)
    (h : 1 ≤ slice_size) :
    (∀ b : Nat, (∃ j ∈ calculate_jobs u slice_size blob_size,
        j.start ≤ b ∧ b ≤ j.«end») ↔ b ≤ blob_size) ∧
    List.Pairwise (fun a b : DownloadJob => a.«end» < b.start)
      (calculate_jobs u slice_size blob_size) ∧
    (calculate_jobs u slice_size blob_size).length =
      (blob_size + slice_size + 1) / (slice_size + 1) :=
  ⟨fun b => calculate_jobs_cover u slice_size blob_size b,
   calculate_jobs_pairwise u slice_size blob_size,
   calculate_jobs_length u slice_size blob_size⟩

/-- Claim C1 amended witness: `claim_C1_amended` at objectSize = 21,
sliceSize = 10 (2 jobs, ranges (0,10) and (11,21)). -/
theorem claim_C1_amended_witness :
    (1 : Nat) ≤ 10 ∧
    ((∀ b : Nat, (∃ j ∈ calculate_jobs sample_url_tokens 10 21,
        j.start ≤ b ∧ b ≤ j.«end») ↔ b ≤ 21) ∧
     List.Pairwise (fun a b : DownloadJob => a.«end» < b.start)
       (calculate_jobs sample_url_tokens 10 21) ∧
     (calculate_jobs sample_url_tokens 10 21).length = (21 + 10 + 1) / (10 + 1)) :=
  ⟨by decide, claim_C1_amended sample_url_tokens 21 10 (by decide)⟩

/-- Claim C2 counterexample: with objectSize = 100, workerCount = 1,
minOverride = 10, maxOverride = 20 and multiplier = 3, the source does not
multiply given overrides by the multiplier: `calculate_slice_size` returns 20,
which is outside the claimed interval `[10 * 3, 20 * 3] = [30, 60]`, and
objectSize is not below `10 * 3`. -/
theorem claim_C2_counterexample :
    ¬ ((((100 : Nat) < 10 * 3) → calculate_slice_size 100 1 10 20 3 = 100) ∧
       (¬ ((100 : Nat) < 10 * 3) →
         10 * 3 ≤ calculate_slice_size 100 1 10 20 3 ∧
         calculate_slice_size 100 1 10 20 3 ≤ 20 * 3)) := by decide

/-- Claim C2 amended (corrected): with effectiveMin the min override if given
(nonzero) else the built-in minimum times the multiplier — symmetrically for
effectiveMax, exactly as the source computes them — and provided
workerCount ≥ 1 and effectiveMin ≤ effectiveMax, the value returned by
`calculate_slice_size` lies in `[effectiveMin, effectiveMax]`, except when
objectSize < effectiveMin, in which case it equals objectSize.  (The original
claim used `minOverride * multiplier` and `maxOverride * multiplier`; the
source never multiplies a given override by the multiplier.) -/
theorem claim_C2_amended (blob_size workers min_override max_override multiplier : Nat)
    (hw : 1 ≤ workers)
    (hband : (if min_override ≠ 0 then min_override
        else DEFAULT_MINIMUM_DOWNLOAD_SLICE_SIZE * multiplier) ≤
      (if max_override ≠ 0 then max_override
        else DEFAULT_MAXIMUM_DOWNLOAD_SLICE_SIZE * multiplier)) :
    (blob_size < (if min_override ≠ 0 then min_override
        else DEFAULT_MINIMUM_DOWNLOAD_SLICE_SIZE * multiplier) →
      calculate_slice_size blob_size workers min_override max_override multiplier =
        blob_size) ∧
    (¬ blob_size < (if min_override ≠ 0 then min_override
        else DEFAULT_MINIMUM_DOWNLOAD_SLICE_SIZE * multiplier) →
      (if min_override ≠ 0 then min_override
        else DEFAULT_MINIMUM_DOWNLOAD_SLICE_SIZE * multiplier) ≤
          calculate_slice_size blob_size workers min_override max_override multiplier ∧
      calculate_slice_size blob_size workers min_override max_override multiplier ≤
        (if max_override ≠ 0 then max_override
          else DEFAULT_MAXIMUM_DOWNLOAD_SLICE_SIZE * multiplier)) := by
  simp only [calculate_slice_size]
  generalize blob_size / workers = ev
  split_ifs at hband ⊢ <;> omega

/-- Claim C2 amended witness: `claim_C2_amended` at objectSize = 100,
workerCount = 4, minOverride = 10, maxOverride = 20, multiplier = 1
(evenShare = 25 > 20, so the result is clamped to 20). -/
theorem claim_C2_amended_witness :
    ((1 : Nat) ≤ 4 ∧
      (if (10 : Nat) ≠ 0 then (10 : Nat)
        else DEFAULT_MINIMUM_DOWNLOAD_SLICE_SIZE * 1) ≤
      (if (20 : Nat) ≠ 0 then (20 : Nat)
        else DEFAULT_MAXIMUM_DOWNLOAD_SLICE_SIZE * 1)) ∧
    (((100 : Nat) < (if (10 : Nat) ≠ 0 then (10 : Nat)
        else DEFAULT_MINIMUM_DOWNLOAD_SLICE_SIZE * 1) →
      calculate_slice_size 100 4 10 20 1 = 100) ∧
     (¬ (100 : Nat) < (if (10 : Nat) ≠ 0 then (10 : Nat)
        else DEFAULT_MINIMUM_DOWNLOAD_SLICE_SIZE * 1) →
      (if (10 : Nat) ≠ 0 then (10 : Nat)
        else DEFAULT_MINIMUM_DOWNLOAD_SLICE_SIZE * 1) ≤
          calculate_slice_size 100 4 10 20 1 ∧
      calculate_slice_size 100 4 10 20 1 ≤
        (if (20 : Nat) ≠ 0 then (20 : Nat)
          else DEFAULT_MAXIMUM_DOWNLOAD_SLICE_SIZE * 1))) :=
  ⟨⟨by decide, by decide⟩, claim_C2_amended 100 4 10 20 1 (by decide) (by decide)⟩

lemma jobs_100MiB :
    calculate_jobs sample_url_tokens 67108864 104857600 =
      [{ url_tokens := sample_url_tokens, start := 0, «end» := 67108864, slice_number := 1 },
       { url_tokens := sample_url_tokens, start := 67108865, «end» := 104857600,
         slice_number := 2 }] := by
  rw [calculate_jobs, calculate_jobs_go]
  norm_num
  rw [calculate_jobs_go]
  norm_num

/-- Claim C3 counterexample: with objectSize = 100 MiB and slice size 64 MiB,
the two jobs built by `calculate_jobs` do not have the claimed inclusive
ranges `[0, 64MiB-1]` and `[64MiB, 100MiB-1]`: the source sets each job end to
`min(start + sliceSize, objectSize)` and the next start to one past it, giving
`(0, 67108864)` and `(67108865, 104857600)`. -/
theorem claim_C3_counterexample :
    ¬ (calculate_slice_size 104857600 4 0 0 1 = 67108864 ∧
       (calculate_jobs sample_url_tokens 67108864 104857600).map
           (fun j => (j.start, j.«end»)) =
         [(0, 67108863), (67108864, 104857599)]) := by
  rintro ⟨-, hjobs⟩
  rw [jobs_100MiB] at hjobs
  norm_num at hjobs

/-- Claim C3 amended (corrected): with objectSize = 100 MiB = 104857600,
workerCount = 4, no overrides and multiplier 1 (so minimum 64 MiB and maximum
1 GiB), `calculate_slice_size` returns 64 MiB = 67108864, and `calculate_jobs`
with that slice size produces exactly 2 jobs whose inclusive byte ranges are
`[0, 67108864]` and `[67108865, 104857600]` (each end is one byte past the
claimed `[0, 64MiB-1]` / `[64MiB, 100MiB-1]`). -/
theorem claim_C3_amended :
    calculate_slice_size 104857600 4 0 0 1 = 67108864 ∧
    calculate_jobs sample_url_tokens 67108864 104857600 =
      [{ url_tokens := sample_url_tokens, start := 0, «end» := 67108864, slice_number := 1 },
       { url_tokens := sample_url_tokens, start := 67108865, «end» := 104857600,
         slice_number := 2 }] :=
  ⟨by decide, jobs_100MiB⟩

/-- Claim C6 (confirmed): for every invocation, `download_command` assigns
`TRANSFER_CHUNK_SIZE[0]`, `PROCESS_COUNT[0]` and `THREAD_COUNT[0]` on lists
that are empty at module load, so it raises `IndexError` before tokenizing the
URL or attempting any transfer — the result is `indexError` for every
continuation `rest`, so `rest` (tokenization onwards) is never reached. -/
theorem claim_C6_tunables_index_error (io_buffer transfer_chunk processes threads : Nat)
    (rest : List Nat → List Nat → List Nat → PyResult Unit) :
    download_command io_buffer transfer_chunk processes threads rest =
      PyResult.indexError ∧
    TRANSFER_CHUNK_SIZE = [] ∧ PROCESS_COUNT = [] ∧ THREAD_COUNT = [] :=
  ⟨rfl, rfl, rfl, rfl⟩

/-- Claim C8 (confirmed): the download command's fan-out stage exits 0 if and
only if every download job reports success, and exits 1 if and only if some
job returns failure; each job is submitted exactly once (`jobs.map`), with no
retry. -/
theorem claim_C8_exit_code (jobs : List DownloadJob)
    (run_download_job : DownloadJob → Bool) :
    (download_command_exit_code jobs run_download_job = 0 ↔
      ∀ j ∈ jobs, run_download_job j = true) ∧
    (download_command_exit_code jobs run_download_job = 1 ↔
      ∃ j ∈ jobs, run_download_job j = false) := by
  unfold download_command_exit_code
  have hiff : ((jobs.map run_download_job).all (fun b => b) = true) ↔
      ∀ j ∈ jobs, run_download_job j = true := by
    constructor
    · intro hb j hj
      exact List.all_eq_true.mp hb (run_download_job j) (List.mem_map_of_mem _ hj)
    · intro hall
      refine List.all_eq_true.mpr ?_
      intro b hb
      obtain ⟨j, hj, rfl⟩ := List.mem_map.mp hb
      exact hall j hj
  by_cases h : ∀ j ∈ jobs, run_download_job j = true
  · rw [if_pos (hiff.mpr h)]
    refine ⟨⟨fun _ => h, fun _ => rfl⟩, fun h10 => absurd h10 (by decide), ?_⟩
    rintro ⟨j, hj, hfalse⟩
    rw [h j hj] at hfalse
    exact absurd hfalse (by decide)
  · rw [if_neg (fun hb => h (hiff.mp hb))]
    push_neg at h
    obtain ⟨j, hj, hne⟩ := h
    have hfalse : run_download_job j = false := by
      cases hrj : run_download_job j
      · rfl
      · exact absurd hrj hne
    exact ⟨⟨fun h01 => absurd h01 (by decide), fun hall => absurd (hall j hj) hne⟩,
      fun _ => ⟨j, hj, hfalse⟩, fun _ => rfl⟩

/-- Claim C9 (code bug): a sub-range task is supposed to modify only the bytes
inside its assigned range `[start, end]`, but `_download_range` opens the
output file with mode `"wb"`, which truncates the whole file: with a 4-byte
file `[1, 1, 1, 1]` and the range `[2, 3]`, the resulting file is
`[0, 0, 7, 7]` — byte 0, outside the range, changed from 1 to 0. -/
theorem claim_C9_wb_truncates_outside_range :
    _download_range [1, 1, 1, 1] (fun _ => 7) 2 3 = [0, 0, 7, 7] ∧
    ¬ (∀ p : Nat, p < 4 → (p < 2 ∨ 3 < p) →
        (_download_range [1, 1, 1, 1] (fun _ => 7) 2 3).getD p 0 =
          [1, 1, 1, 1].getD p 0) := by
  constructor
  · rfl
  · intro hall
    exact absurd (hall 0 (by decide) (by decide)) (by decide)
